import Mathlib

/-!
Verification of the edge-geometry core of `bevy_ui_borders`:
thickness resolution, border/outline edge-rectangle decomposition
(`calculate_borders` / `calculate_outlines` in `src/lib.rs` and
`src/outline.rs`), and the extraction pass that turns stored edge
rectangles into draw primitives.  `f32` arithmetic is modelled exactly
over `ℚ`.
-/

namespace BevyUiBorders

/-- A 2D vector, modelling `bevy::math::Vec2` over exact rationals. -/
structure Vec2 where
  x : ℚ
  y : ℚ
deriving DecidableEq, Repr

instance : Add Vec2 := ⟨fun a b => ⟨a.x + b.x, a.y + b.y⟩⟩

instance : Neg Vec2 := ⟨fun a => ⟨-a.x, -a.y⟩⟩

instance : Sub Vec2 := ⟨fun a b => ⟨a.x - b.x, a.y - b.y⟩⟩

/-- Componentwise maximum, modelling `Vec2::max`. -/
def Vec2.cmax (a b : Vec2) : Vec2 := ⟨max a.x b.x, max a.y b.y⟩

/-- Scalar multiplication, modelling `scalar * vec`. -/
def Vec2.scale (c : ℚ) (a : Vec2) : Vec2 := ⟨c * a.x, c * a.y⟩

@[simp] theorem Vec2.add_def (a b : Vec2) : a + b = ⟨a.x + b.x, a.y + b.y⟩ := rfl

@[simp] theorem Vec2.neg_def (a : Vec2) : -a = ⟨-a.x, -a.y⟩ := rfl

@[simp] theorem Vec2.sub_def (a b : Vec2) : a - b = ⟨a.x - b.x, a.y - b.y⟩ := rfl

/-- An axis-aligned rectangle, modelling `bevy::math::Rect`. -/
structure Rect where
  min : Vec2
  max : Vec2
deriving DecidableEq, Repr

/-- Centre of a rectangle, modelling `Rect::center` (`0.5 * (min + max)`). -/
def Rect.center (r : Rect) : Vec2 := Vec2.scale (1/2) (r.min + r.max)

/-- Size of a rectangle, modelling `Rect::size` (`max - min`). -/
def Rect.size (r : Rect) : Vec2 := r.max - r.min

/-- Model of `bevy::ui::Val`: a UI length specification. -/
inductive Val where
  | Auto : Val
  | Undefined : Val
  | Px (px : ℚ) : Val
  | Percent (percent : ℚ) : Val
deriving DecidableEq, Repr

/-- Model of `bevy::ui::UiRect`: one `Val` per edge. -/
structure UiRect where
  left : Val
  right : Val
  top : Val
  bottom : Val
deriving DecidableEq, Repr

/-- Model of `UiRect::all`. -/
def UiRect.all (v : Val) : UiRect := ⟨v, v, v, v⟩

/-- `resolve_thickness` from `src/lib.rs` lines 121-127:
percentage thickness is based on the width of the parent node. -/
def resolve_thickness (value : Val) (parent_width : ℚ) : ℚ :=
  match value with
  | Val.Auto | Val.Undefined => 0
  | Val.Px px => px
  | Val.Percent percent => parent_width * percent / 100

/-- Parent width lookup from `calculate_borders` lines 147-150 (and
`calculate_outlines` lines 142-145): the parent's width when the node
has a parent whose `Node` is found, `0` otherwise (`unwrap_or(0.)`). -/
def lookup_parent_width (parent : Option ℚ) : ℚ := parent.getD 0

/-- The four candidate edge rectangles of a border/outline ring, in array
order Left, Right, Top, Bottom, exactly as built in `calculate_borders`
(`src/lib.rs` lines 163-184) and `calculate_outlines` (`src/outline.rs`
lines 158-179) from outer bounds `mn`/`mx` and inner bounds
`inner_min`/`inner_max`. -/
def ring_rects (mn mx inner_min inner_max : Vec2) : List Rect :=
  [ { min := mn, max := ⟨inner_min.x, mx.y⟩ },
    { min := ⟨inner_max.x, mn.y⟩, max := mx },
    { min := ⟨inner_min.x, mn.y⟩, max := ⟨inner_max.x, inner_min.y⟩ },
    { min := ⟨inner_min.x, inner_max.y⟩, max := ⟨inner_max.x, mx.y⟩ } ]

/-- Degeneracy filter from `calculate_borders` lines 186-192 (and
`calculate_outlines` lines 181-187): an edge is stored only when both its
width and height are strictly positive, otherwise the slot holds `none`. -/
def keep_positive (edge : Rect) : Option Rect :=
  if edge.min.x < edge.max.x ∧ edge.min.y < edge.max.y then some edge else none

/-- Inner minimum of the border ring (`calculate_borders` line 160):
`inner_min = min + Vec2::new(left, top)` with `min = -0.5 * size`. -/
def border_inner_min (size : Vec2) (left top : ℚ) : Vec2 :=
  -(Vec2.scale (1/2) size) + ⟨left, top⟩

/-- Inner maximum of the border ring (`calculate_borders` line 161):
`inner_max = (max - Vec2::new(right, bottom)).max(inner_min)`, the clamp
that keeps the inner bounds from crossing. -/
def border_inner_max (size : Vec2) (left right top bottom : ℚ) : Vec2 :=
  Vec2.cmax (Vec2.scale (1/2) size - ⟨right, bottom⟩)
    (border_inner_min size left top)

/-- Border edge rectangles from the box size and the four resolved
thicknesses: the body of `calculate_borders` lines 157-192.  The border
ring is carved inward from the box `[-size/2, size/2]`. -/
def compute_border_edges (size : Vec2) (left right top bottom : ℚ) :
    List (Option Rect) :=
  (ring_rects (-(Vec2.scale (1/2) size)) (Vec2.scale (1/2) size)
    (border_inner_min size left top)
    (border_inner_max size left right top bottom)).map keep_positive

/-- Outer minimum of the outline ring (`calculate_outlines` line 153):
`min = -Vec2::new(half_size.x + left, half_size.y + top)`. -/
def outline_outer_min (size : Vec2) (left top : ℚ) : Vec2 :=
  ⟨-((Vec2.scale (1/2) size).x + left), -((Vec2.scale (1/2) size).y + top)⟩

/-- Outer maximum of the outline ring (`calculate_outlines` line 154):
`max = Vec2::new(half_size.x + right, half_size.y + bottom)`. -/
def outline_outer_max (size : Vec2) (right bottom : ℚ) : Vec2 :=
  ⟨(Vec2.scale (1/2) size).x + right, (Vec2.scale (1/2) size).y + bottom⟩

/-- Inner minimum of the outline ring (`calculate_outlines` line 155):
`inner_min = min + Vec2::new(left, top)`. -/
def outline_inner_min (size : Vec2) (left top : ℚ) : Vec2 :=
  outline_outer_min size left top + ⟨left, top⟩

/-- Inner maximum of the outline ring (`calculate_outlines` line 156):
`inner_max = (max - Vec2::new(right, bottom)).max(inner_min)`. -/
def outline_inner_max (size : Vec2) (left right top bottom : ℚ) : Vec2 :=
  Vec2.cmax (outline_outer_max size right bottom - ⟨right, bottom⟩)
    (outline_inner_min size left top)

/-- Outline edge rectangles from the box size and the four resolved
thicknesses: the body of `calculate_outlines` lines 151-187.  The outline
ring is carved outward from the box: the outer bounds are the box bounds
grown by the thicknesses. -/
def compute_outline_edges (size : Vec2) (left right top bottom : ℚ) :
    List (Option Rect) :=
  (ring_rects (outline_outer_min size left top)
    (outline_outer_max size right bottom)
    (outline_inner_min size left top)
    (outline_inner_max size left right top bottom)).map keep_positive

/-- Model of the `CalculatedBorder` component: the four stored border edge
slots, in order Left, Right, Top, Bottom. -/
structure CalculatedBorder where
  edges : List (Option Rect)
deriving DecidableEq, Repr

/-- Model of the `CalculatedOutline` component: the four stored outline
edge slots, in order Left, Right, Top, Bottom. -/
structure CalculatedOutline where
  edges : List (Option Rect)
deriving DecidableEq, Repr

/-- One iteration of the `calculate_borders` loop (`src/lib.rs` lines
141-193) for a single node: the stored geometry `prev` is overwritten in
full — either reset to all-`none` when the box has non-positive width or
height, or replaced slot by slot with the freshly computed edges. -/
def calculate_border_node (prev : CalculatedBorder) (node_size : Vec2)
    (border : UiRect) (parent : Option ℚ) : CalculatedBorder :=
  if node_size.x ≤ 0 ∨ node_size.y ≤ 0 then
    { edges := [none, none, none, none] }
  else
    let parent_width := lookup_parent_width parent
    let left := resolve_thickness border.left parent_width
    let right := resolve_thickness border.right parent_width
    let top := resolve_thickness border.top parent_width
    let bottom := resolve_thickness border.bottom parent_width
    { edges := compute_border_edges node_size left right top bottom }

/-- One iteration of the `calculate_outlines` loop (`src/outline.rs` lines
141-188) for a single node: the stored geometry `prev` is overwritten slot
by slot with the freshly computed edges.  Unlike `calculate_border_node`,
there is no guard on non-positive box size in the source. -/
def calculate_outline_node (prev : CalculatedOutline) (node_size : Vec2)
    (outline : UiRect) (parent : Option ℚ) : CalculatedOutline :=
  let parent_width := lookup_parent_width parent
  let left := resolve_thickness outline.left parent_width
  let right := resolve_thickness outline.right parent_width
  let top := resolve_thickness outline.top parent_width
  let bottom := resolve_thickness outline.bottom parent_width
  { edges := compute_outline_edges node_size left right top bottom }

/-- Model of `Color`: RGBA channels over exact rationals. -/
structure Color where
  r : ℚ
  g : ℚ
  b : ℚ
  a : ℚ
deriving DecidableEq, Repr

/-- The per-entity data read by the extraction query in
`extract_uinode_borders` (`src/lib.rs` lines 200-211) and
`extract_uinode_outlines` (`src/outline.rs` lines 195-206): world
transform (modelled as a translation), the stored edge slots, the
border/outline color, computed visibility, and the optional clip.  An
entity missing any of these components fails the query lookup and is
modelled by the lookup returning `none`. -/
structure QueryItem where
  transform : Vec2
  edges : List (Option Rect)
  color : Color
  visible : Bool
  clip : Option Rect
deriving DecidableEq, Repr

/-- Model of `bevy::ui::ExtractedUiNode` restricted to the fields the
extraction functions set from their inputs: paint-order stack index,
composed transform (world translation plus edge-rect centre, from
`transform * Mat4::from_translation(rect.center())`), color, the
rectangle `{ min: ZERO, max: rect.size() }`, and the inherited clip. -/
structure ExtractedUiNode where
  stack_index : ℕ
  transform : Vec2
  color : Color
  rect : Rect
  clip : Option Rect
deriving DecidableEq, Repr

/-- The draw primitive pushed for one non-`none` edge rectangle
(`src/lib.rs` lines 227-240, `src/outline.rs` lines 222-235). -/
def push_edge (stack_index : ℕ) (item : QueryItem) (edge_rect : Rect) :
    ExtractedUiNode :=
  { stack_index := stack_index
    transform := item.transform + Rect.center edge_rect
    color := item.color
    rect := { min := ⟨0, 0⟩, max := Rect.size edge_rect }
    clip := item.clip }

/-- The primitives emitted for one queried entity: nothing when the node
is invisible or its color's alpha is exactly `0` (`src/lib.rs` lines
219-222), otherwise one primitive per non-`none` edge slot, taken in slot
order Left, Right, Top, Bottom (`edges.iter().flatten()`). -/
def node_prims (stack_index : ℕ) (item : QueryItem) : List ExtractedUiNode :=
  if item.visible = false ∨ item.color.a = 0 then []
  else (item.edges.filterMap id).map (push_edge stack_index item)

/-- Query lookup plus per-entity emission: a stacked entity the query
cannot resolve (`if let Ok(..)`) is skipped silently. -/
def entity_prims (stack_index : ℕ) (q : ℕ → Option QueryItem)
    (entity : ℕ) : List ExtractedUiNode :=
  match q entity with
  | none => []
  | some item => node_prims stack_index item

/-- The `ui_stack.uinodes.iter().enumerate()` loop of the extraction
functions, started at stack position `i`. -/
def extract_from (i : ℕ) (stack : List ℕ) (q : ℕ → Option QueryItem) :
    List ExtractedUiNode :=
  match stack with
  | [] => []
  | e :: rest => entity_prims i q e ++ extract_from (i + 1) rest q

/-- One extraction pass, modelling `extract_uinode_borders`
(`src/lib.rs` lines 197-244) and equally `extract_uinode_outlines`
(`src/outline.rs` lines 192-239), which are identical up to the
components they read: walk the paint-order stack front to back and append
the primitives of each entity in turn. -/
def extract_uinodes (stack : List ℕ) (q : ℕ → Option QueryItem) :
    List ExtractedUiNode :=
  extract_from 0 stack q

/-- Two rectangles overlap in area when their interiors intersect. -/
def overlaps (a b : Rect) : Prop :=
  max a.min.x b.min.x < min a.max.x b.max.x ∧
    max a.min.y b.min.y < min a.max.y b.max.y

/-- Closed horizontal extent of an optional edge rectangle. -/
def optSpanX (o : Option Rect) : Set ℚ :=
  match o with
  | none => ∅
  | some r => Set.Icc r.min.x r.max.x

/-- Open horizontal extent (interior) of an optional edge rectangle. -/
def optInterX (o : Option Rect) : Set ℚ :=
  match o with
  | none => ∅
  | some r => Set.Ioo r.min.x r.max.x

/-- Closed vertical extent of an optional edge rectangle. -/
def optSpanY (o : Option Rect) : Set ℚ :=
  match o with
  | none => ∅
  | some r => Set.Icc r.min.y r.max.y

/-- Open vertical extent (interior) of an optional edge rectangle. -/
def optInterY (o : Option Rect) : Set ℚ :=
  match o with
  | none => ∅
  | some r => Set.Ioo r.min.y r.max.y

/-- A sample extraction query for concrete checks: every entity resolves
to a visible opaque node with one stored left edge. -/
def sample_query : ℕ → Option QueryItem :=
  fun _ => some
    { transform := ⟨0, 0⟩
      edges := [some ⟨⟨-5, -5⟩, ⟨-4, 5⟩⟩, none, none, none]
      color := ⟨1, 1, 1, 1⟩
      visible := true
      clip := none }

/-- A sample extraction query for concrete checks: every entity resolves
to a visible node whose color has alpha exactly `0`. -/
def sample_query_alpha_zero : ℕ → Option QueryItem :=
  fun _ => some
    { transform := ⟨0, 0⟩
      edges := [some ⟨⟨-5, -5⟩, ⟨-4, 5⟩⟩, none, none, none]
      color := ⟨1, 1, 1, 0⟩
      visible := true
      clip := none }

end BevyUiBorders

namespace BevyUiBorders

/-- Inversion of the degeneracy filter: a slot holds `some r` exactly when
the candidate has strictly positive width and height and `r` is it. -/
theorem keep_positive_eq_some {e r : Rect} :
    keep_positive e = some r ↔
      (e.min.x < e.max.x ∧ e.min.y < e.max.y) ∧ r = e := by
  unfold keep_positive
  split <;> simp_all [eq_comm]

/-- No slot of the all-`none` reset value holds a rectangle. -/
theorem allNone_getD (i : ℕ) (r : Rect)
    (h : ([none, none, none, none] : List (Option Rect)).getD i none =
      some r) : False := by
  rcases i with _ | _ | _ | _ | i <;> simp [List.getD] at h

/-- Slots of a ring filtered by `keep_positive` hold pairwise
non-overlapping rectangles, provided the inner bounds do not cross. -/
theorem ring_edges_disjoint (mn mx inner_min inner_max : Vec2)
    (hx : inner_min.x ≤ inner_max.x) (hy : inner_min.y ≤ inner_max.y)
    (i j : ℕ) (hij : i ≠ j) (ri rj : Rect)
    (hi : ((ring_rects mn mx inner_min inner_max).map keep_positive).getD
      i none = some ri)
    (hj : ((ring_rects mn mx inner_min inner_max).map keep_positive).getD
      j none = some rj) :
    ¬ overlaps ri rj := by
  rcases i with _ | _ | _ | _ | i <;> rcases j with _ | _ | _ | _ | j <;>
    simp only [ring_rects, List.map_cons, List.map_nil, List.getD_cons_zero,
      List.getD_cons_succ, List.getD_nil] at hi hj <;>
    first
    | exact absurd rfl hij
    | exact Option.noConfusion hi
    | exact Option.noConfusion hj
    | (obtain ⟨⟨hix, hiy⟩, rfl⟩ := keep_positive_eq_some.mp hi
       obtain ⟨⟨hjx, hjy⟩, rfl⟩ := keep_positive_eq_some.mp hj
       intro hov
       simp only [overlaps, max_lt_iff, lt_min_iff] at hov
       obtain ⟨⟨⟨a1, a2⟩, a3, a4⟩, ⟨b1, b2⟩, b3, b4⟩ := hov
       linarith)

/-- The border ring's inner bounds never cross, by the `.max(inner_min)`
clamp. -/
theorem border_inner_le (size : Vec2) (left right top bottom : ℚ) :
    (border_inner_min size left top).x ≤
        (border_inner_max size left right top bottom).x ∧
      (border_inner_min size left top).y ≤
        (border_inner_max size left right top bottom).y := by
  unfold border_inner_max Vec2.cmax
  exact ⟨le_max_right _ _, le_max_right _ _⟩

/-- The outline ring's inner bounds never cross, by the `.max(inner_min)`
clamp. -/
theorem outline_inner_le (size : Vec2) (left right top bottom : ℚ) :
    (outline_inner_min size left top).x ≤
        (outline_inner_max size left right top bottom).x ∧
      (outline_inner_min size left top).y ≤
        (outline_inner_max size left right top bottom).y := by
  unfold outline_inner_max Vec2.cmax
  exact ⟨le_max_right _ _, le_max_right _ _⟩

/-- Distinct border edge slots never hold overlapping rectangles. -/
theorem compute_border_edges_disjoint (size : Vec2)
    (left right top bottom : ℚ) (i j : ℕ) (hij : i ≠ j) (ri rj : Rect)
    (hi : (compute_border_edges size left right top bottom).getD i none =
      some ri)
    (hj : (compute_border_edges size left right top bottom).getD j none =
      some rj) :
    ¬ overlaps ri rj := by
  unfold compute_border_edges at hi hj
  exact ring_edges_disjoint _ _ _ _
    (border_inner_le size left right top bottom).1
    (border_inner_le size left right top bottom).2 i j hij ri rj hi hj

/-- Distinct outline edge slots never hold overlapping rectangles. -/
theorem compute_outline_edges_disjoint (size : Vec2)
    (left right top bottom : ℚ) (i j : ℕ) (hij : i ≠ j) (ri rj : Rect)
    (hi : (compute_outline_edges size left right top bottom).getD i none =
      some ri)
    (hj : (compute_outline_edges size left right top bottom).getD j none =
      some rj) :
    ¬ overlaps ri rj := by
  unfold compute_outline_edges at hi hj
  exact ring_edges_disjoint _ _ _ _
    (outline_inner_le size left right top bottom).1
    (outline_inner_le size left right top bottom).2 i j hij ri rj hi hj

/-- Every slot produced by the `keep_positive` filter is `none` or holds a
rectangle of strictly positive width and height. -/
theorem mem_map_keep_positive {l : List Rect} {o : Option Rect}
    (h : o ∈ l.map keep_positive) :
    o = none ∨ ∃ r, o = some r ∧ r.min.x < r.max.x ∧ r.min.y < r.max.y := by
  obtain ⟨e, -, rfl⟩ := List.mem_map.mp h
  unfold keep_positive
  split
  · exact Or.inr ⟨e, rfl, ‹_›⟩
  · exact Or.inl rfl

/-- C1 (amended): for every node whose box size has width ≤ 0 or
height ≤ 0, Border Recompute leaves all four edge slots `None`,
regardless of the thickness spec and parent width.  (The outline pass has
no such guard; see the counterexample.) -/
theorem C1_border_collapsed_box_all_none (prev : CalculatedBorder)
    (size : Vec2) (border : UiRect) (parent : Option ℚ)
    (h : size.x ≤ 0 ∨ size.y ≤ 0) :
    (calculate_border_node prev size border parent).edges =
      [none, none, none, none] := by
  unfold calculate_border_node
  rw [if_pos h]

/-- Witness for C1: a 0×50 box with a 10px border spec stores all-`none`
border geometry. -/
theorem C1_border_collapsed_box_all_none_witness :
    ((Vec2.x ⟨0, 50⟩ ≤ 0 ∨ Vec2.y ⟨0, 50⟩ ≤ 0)) ∧
    (calculate_border_node ⟨[none, none, none, none]⟩ ⟨0, 50⟩
        (UiRect.all (Val.Px 10)) none).edges = [none, none, none, none] :=
  ⟨Or.inl le_rfl,
   C1_border_collapsed_box_all_none ⟨[none, none, none, none]⟩ ⟨0, 50⟩
     (UiRect.all (Val.Px 10)) none (Or.inl le_rfl)⟩

/-- Counterexample to C1 as stated: Outline Recompute on a 0×50 box with a
10px outline spec stores non-`none` edges, because `calculate_outlines`
has no non-positive-size guard. -/
theorem C1_outline_collapsed_box_counterexample :
    (Vec2.x ⟨0, 50⟩ ≤ 0) ∧
    (calculate_outline_node ⟨[none, none, none, none]⟩ ⟨0, 50⟩
        (UiRect.all (Val.Px 10)) none).edges ≠ [none, none, none, none] := by
  refine ⟨le_rfl, ?_⟩
  have hc : (calculate_outline_node ⟨[none, none, none, none]⟩ ⟨0, 50⟩
      (UiRect.all (Val.Px 10)) none).edges =
      [some ⟨⟨-10, -35⟩, ⟨0, 35⟩⟩, some ⟨⟨0, -35⟩, ⟨10, 35⟩⟩, none, none] := by
    norm_num [calculate_outline_node, compute_outline_edges, ring_rects,
      keep_positive, Vec2.scale, Vec2.cmax, lookup_parent_width,
      outline_outer_min, outline_outer_max, outline_inner_min,
      outline_inner_max, resolve_thickness, UiRect.all]
  rw [hc]
  simp

/-- Counterexample to C2 as stated: a fixed spec of `-1` resolves to the
negative thickness `-1`; negative lengths are representable in `Val`. -/
theorem C2_negative_px_counterexample :
    resolve_thickness (Val.Px (-1)) 0 = -1 ∧ ¬ ((0 : ℚ) ≤ -1) :=
  ⟨rfl, by norm_num⟩

/-- C2 (amended): the resolved thickness is ≥ 0 whenever the parent width
is ≥ 0 and the spec carries no negative length or percentage; a negative
`Px` or `Percent` payload can resolve negative. -/
theorem C2_resolve_nonneg (v : Val) (w : ℚ) (hw : 0 ≤ w)
    (hpx : ∀ px, v = Val.Px px → 0 ≤ px)
    (hpc : ∀ p, v = Val.Percent p → 0 ≤ p) :
    0 ≤ resolve_thickness v w := by
  cases v with
  | Auto => simp [resolve_thickness]
  | Undefined => simp [resolve_thickness]
  | Px px => simpa [resolve_thickness] using hpx px rfl
  | Percent p =>
      exact div_nonneg (mul_nonneg hw (hpc p rfl)) (by norm_num)

/-- Witness for C2: a 3px spec against parent width 2 resolves ≥ 0. -/
theorem C2_resolve_nonneg_witness :
    (0 ≤ (2 : ℚ)) ∧ 0 ≤ resolve_thickness (Val.Px 3) 2 :=
  ⟨by norm_num,
   C2_resolve_nonneg (Val.Px 3) 2 (by norm_num)
     (fun px h => by cases h; norm_num)
     (fun p h => Val.noConfusion h)⟩

/-- C5: thickness resolution returns the given length for `Px`,
`parent_width * p / 100` for `Percent`, `0` for `Auto`/`Undefined`; and a
parentless node has parent width `0`, so a percentage spec on it resolves
to `0`. -/
theorem C5_resolve_cases (px p w : ℚ) :
    resolve_thickness (Val.Px px) w = px ∧
    resolve_thickness (Val.Percent p) w = w * p / 100 ∧
    resolve_thickness Val.Auto w = 0 ∧
    resolve_thickness Val.Undefined w = 0 ∧
    lookup_parent_width none = 0 ∧
    resolve_thickness (Val.Percent p) (lookup_parent_width none) = 0 := by
  refine ⟨rfl, rfl, rfl, rfl, rfl, ?_⟩
  simp [resolve_thickness, lookup_parent_width]

/-- C6: every stored edge slot, border or outline, is `none` or a
rectangle with strictly positive width and height. -/
theorem C6_stored_edges_nondegenerate (prevB : CalculatedBorder)
    (prevO : CalculatedOutline) (size : Vec2) (specB specO : UiRect)
    (parent : Option ℚ) (o : Option Rect) :
    ((o ∈ (calculate_border_node prevB size specB parent).edges →
      o = none ∨
        ∃ r, o = some r ∧ r.min.x < r.max.x ∧ r.min.y < r.max.y)) ∧
    ((o ∈ (calculate_outline_node prevO size specO parent).edges →
      o = none ∨
        ∃ r, o = some r ∧ r.min.x < r.max.x ∧ r.min.y < r.max.y)) := by
  constructor
  · intro h
    unfold calculate_border_node at h
    by_cases hsz : size.x ≤ 0 ∨ size.y ≤ 0
    · rw [if_pos hsz] at h
      simp only [List.mem_cons, List.not_mem_nil, or_false] at h
      rcases h with rfl | rfl | rfl | rfl <;> exact Or.inl rfl
    · rw [if_neg hsz] at h
      exact mem_map_keep_positive h
  · intro h
    unfold calculate_outline_node at h
    exact mem_map_keep_positive h

/-- Witness for C6: the stored left border edge of a 100×100 box with a
10px border has positive width and height. -/
theorem C6_stored_edges_nondegenerate_witness :
    (some (⟨⟨-50, -50⟩, ⟨-40, 50⟩⟩ : Rect) ∈
      (calculate_border_node ⟨[none, none, none, none]⟩ ⟨100, 100⟩
        (UiRect.all (Val.Px 10)) none).edges) ∧
    (some (⟨⟨-50, -50⟩, ⟨-40, 50⟩⟩ : Rect) = none ∨
      ∃ r, some (⟨⟨-50, -50⟩, ⟨-40, 50⟩⟩ : Rect) = some r ∧
        r.min.x < r.max.x ∧ r.min.y < r.max.y) := by
  have hc : (calculate_border_node ⟨[none, none, none, none]⟩ ⟨100, 100⟩
      (UiRect.all (Val.Px 10)) none).edges =
      [some ⟨⟨-50, -50⟩, ⟨-40, 50⟩⟩, some ⟨⟨40, -50⟩, ⟨50, 50⟩⟩,
        some ⟨⟨-40, -50⟩, ⟨40, -40⟩⟩, some ⟨⟨-40, 40⟩, ⟨40, 50⟩⟩] := by
    norm_num [calculate_border_node, compute_border_edges, ring_rects,
      keep_positive, Vec2.scale, Vec2.cmax, lookup_parent_width,
      border_inner_min, border_inner_max, resolve_thickness, UiRect.all]
  have hm : some (⟨⟨-50, -50⟩, ⟨-40, 50⟩⟩ : Rect) ∈
      (calculate_border_node ⟨[none, none, none, none]⟩ ⟨100, 100⟩
        (UiRect.all (Val.Px 10)) none).edges := by
    rw [hc]; simp
  exact ⟨hm,
    (C6_stored_edges_nondegenerate ⟨[none, none, none, none]⟩
      ⟨[none, none, none, none]⟩ ⟨100, 100⟩ (UiRect.all (Val.Px 10))
      (UiRect.all (Val.Px 10)) none _).1 hm⟩

/-- C9: recomputing border or outline geometry twice with unchanged
inputs stores geometry identical to a single run — each pass overwrites
every slot from the inputs alone, so the previous stored value is
irrelevant. -/
theorem C9_recompute_idempotent (prevB : CalculatedBorder)
    (prevO : CalculatedOutline) (size : Vec2) (specB specO : UiRect)
    (parent : Option ℚ) :
    calculate_border_node (calculate_border_node prevB size specB parent)
        size specB parent =
      calculate_border_node prevB size specB parent ∧
    calculate_outline_node (calculate_outline_node prevO size specO parent)
        size specO parent =
      calculate_outline_node prevO size specO parent :=
  ⟨rfl, rfl⟩

/-- C3: after a recompute run, border or outline, any two distinct stored
edge slots hold rectangles with disjoint interiors. -/
theorem C3_stored_edges_disjoint (prevB : CalculatedBorder)
    (prevO : CalculatedOutline) (size : Vec2) (specB specO : UiRect)
    (parent : Option ℚ) (i j : ℕ) (hij : i ≠ j) (ri rj : Rect) :
    (((calculate_border_node prevB size specB parent).edges.getD i none =
        some ri →
      (calculate_border_node prevB size specB parent).edges.getD j none =
        some rj →
      ¬ overlaps ri rj)) ∧
    (((calculate_outline_node prevO size specO parent).edges.getD i none =
        some ri →
      (calculate_outline_node prevO size specO parent).edges.getD j none =
        some rj →
      ¬ overlaps ri rj)) := by
  constructor
  · intro hi hj
    unfold calculate_border_node at hi hj
    by_cases hsz : size.x ≤ 0 ∨ size.y ≤ 0
    · rw [if_pos hsz] at hi
      exact (allNone_getD i ri hi).elim
    · rw [if_neg hsz] at hi hj
      exact compute_border_edges_disjoint size _ _ _ _ i j hij ri rj hi hj
  · intro hi hj
    unfold calculate_outline_node at hi hj
    exact compute_outline_edges_disjoint size _ _ _ _ i j hij ri rj hi hj

/-- Witness for C3: the stored Left and Right border edges of a 100×100
box with a 10px border do not overlap. -/
theorem C3_stored_edges_disjoint_witness :
    (0 : ℕ) ≠ 1 ∧
    ¬ overlaps ⟨⟨-50, -50⟩, ⟨-40, 50⟩⟩ ⟨⟨40, -50⟩, ⟨50, 50⟩⟩ := by
  refine ⟨by decide, ?_⟩
  refine (C3_stored_edges_disjoint ⟨[none, none, none, none]⟩
    ⟨[none, none, none, none]⟩ ⟨100, 100⟩ (UiRect.all (Val.Px 10))
    (UiRect.all (Val.Px 10)) none 0 1 (by decide)
    ⟨⟨-50, -50⟩, ⟨-40, 50⟩⟩ ⟨⟨40, -50⟩, ⟨50, 50⟩⟩).1 ?_ ?_ <;>
  · norm_num [calculate_border_node, compute_border_edges, ring_rects,
      keep_positive, Vec2.scale, Vec2.cmax, lookup_parent_width,
      border_inner_min, border_inner_max, resolve_thickness, UiRect.all,
      List.getD]

/-- Candidate ring rectangles stay inside the outer bounds whenever both
inner bound corners lie inside the outer bounds. -/
theorem ring_rects_within (mn mx inner_min inner_max : Vec2)
    (h1 : mn.x ≤ inner_min.x) (h2 : inner_min.x ≤ mx.x)
    (h3 : mn.x ≤ inner_max.x) (h4 : inner_max.x ≤ mx.x)
    (h5 : mn.y ≤ inner_min.y) (h6 : inner_min.y ≤ mx.y)
    (h7 : mn.y ≤ inner_max.y) (h8 : inner_max.y ≤ mx.y) :
    ∀ rect ∈ ring_rects mn mx inner_min inner_max,
      mn.x ≤ rect.min.x ∧ rect.max.x ≤ mx.x ∧
        mn.y ≤ rect.min.y ∧ rect.max.y ≤ mx.y := by
  intro rect hr
  simp only [ring_rects, List.mem_cons, List.not_mem_nil, or_false] at hr
  rcases hr with rfl | rfl | rfl | rfl
  · exact ⟨le_refl _, h2, le_refl _, le_refl _⟩
  · exact ⟨h3, le_refl _, le_refl _, le_refl _⟩
  · exact ⟨h1, h4, le_refl _, h6⟩
  · exact ⟨h1, h4, h7, le_refl _⟩

/-- C10 (amended): for a box with positive width and height and
non-negative resolved thicknesses with additionally `left ≤ width` and
`top ≤ height`, every stored border edge rectangle lies inside the box
`[-size/2, size/2]` on both axes. -/
theorem C10_border_edges_within_box (size : Vec2)
    (left right top bottom : ℚ) (hw : 0 < size.x) (hh : 0 < size.y)
    (hl : 0 ≤ left) (hr : 0 ≤ right) (ht : 0 ≤ top) (hb : 0 ≤ bottom)
    (hlw : left ≤ size.x) (hth : top ≤ size.y) :
    ∀ o ∈ compute_border_edges size left right top bottom, ∀ r, o = some r →
      -(size.x / 2) ≤ r.min.x ∧ r.max.x ≤ size.x / 2 ∧
        -(size.y / 2) ≤ r.min.y ∧ r.max.y ≤ size.y / 2 := by
  intro o ho r hor
  subst hor
  unfold compute_border_edges at ho
  obtain ⟨e, he, hke⟩ := List.mem_map.mp ho
  obtain ⟨⟨hex, hey⟩, rfl⟩ := keep_positive_eq_some.mp hke
  have h1 : (-(Vec2.scale (1/2) size)).x ≤ (border_inner_min size left top).x := by
    simp only [border_inner_min, Vec2.scale, Vec2.neg_def, Vec2.add_def]
    linarith
  have h2 : (border_inner_min size left top).x ≤ (Vec2.scale (1/2) size).x := by
    simp only [border_inner_min, Vec2.scale, Vec2.neg_def, Vec2.add_def]
    linarith
  have h4 : (border_inner_max size left right top bottom).x ≤
      (Vec2.scale (1/2) size).x := by
    simp only [border_inner_max, border_inner_min, Vec2.cmax, Vec2.scale,
      Vec2.neg_def, Vec2.add_def, Vec2.sub_def, max_le_iff]
    constructor <;> linarith
  have h3 : (-(Vec2.scale (1/2) size)).x ≤
      (border_inner_max size left right top bottom).x :=
    le_trans h1 (border_inner_le size left right top bottom).1
  have h5 : (-(Vec2.scale (1/2) size)).y ≤ (border_inner_min size left top).y := by
    simp only [border_inner_min, Vec2.scale, Vec2.neg_def, Vec2.add_def]
    linarith
  have h6 : (border_inner_min size left top).y ≤ (Vec2.scale (1/2) size).y := by
    simp only [border_inner_min, Vec2.scale, Vec2.neg_def, Vec2.add_def]
    linarith
  have h8 : (border_inner_max size left right top bottom).y ≤
      (Vec2.scale (1/2) size).y := by
    simp only [border_inner_max, border_inner_min, Vec2.cmax, Vec2.scale,
      Vec2.neg_def, Vec2.add_def, Vec2.sub_def, max_le_iff]
    constructor <;> linarith
  have h7 : (-(Vec2.scale (1/2) size)).y ≤
      (border_inner_max size left right top bottom).y :=
    le_trans h5 (border_inner_le size left right top bottom).2
  obtain ⟨c1, c2, c3, c4⟩ := ring_rects_within _ _ _ _ h1 h2 h3 h4 h5 h6 h7 h8 r he
  have e1 : (-(Vec2.scale (1/2) size)).x = -(size.x / 2) := by
    simp only [Vec2.scale, Vec2.neg_def]
    ring
  have e2 : (Vec2.scale (1/2) size).x = size.x / 2 := by
    simp only [Vec2.scale]
    ring
  have e3 : (-(Vec2.scale (1/2) size)).y = -(size.y / 2) := by
    simp only [Vec2.scale, Vec2.neg_def]
    ring
  have e4 : (Vec2.scale (1/2) size).y = size.y / 2 := by
    simp only [Vec2.scale]
    ring
  exact ⟨by linarith, by linarith, by linarith, by linarith⟩

/-- Counterexample to C10 as stated: with box 100×100 and non-negative
resolved thicknesses `left = 200`, `right = top = bottom = 0`, the stored
Left border edge spans `x ∈ [-50, 150]` and escapes the box's max x
coordinate `50`. -/
theorem C10_border_edge_escapes_box_counterexample :
    ((0 : ℚ) < 100 ∧ (0 : ℚ) ≤ 200) ∧
    (compute_border_edges ⟨100, 100⟩ 200 0 0 0).getD 0 none =
      some ⟨⟨-50, -50⟩, ⟨150, 50⟩⟩ ∧
    ¬ ((150 : ℚ) ≤ 100 / 2) := by
  refine ⟨⟨by norm_num, by norm_num⟩, ?_, by norm_num⟩
  norm_num [compute_border_edges, ring_rects, keep_positive, Vec2.scale,
    Vec2.cmax, border_inner_min, border_inner_max, List.getD]

/-- Witness for C10: the stored Left border edge of a 100×100 box with
10px thickness everywhere lies inside the box. -/
theorem C10_border_edges_within_box_witness :
    -((100 : ℚ) / 2) ≤ -50 ∧ (-40 : ℚ) ≤ 100 / 2 ∧
      -((100 : ℚ) / 2) ≤ -50 ∧ (50 : ℚ) ≤ 100 / 2 := by
  have hm : some (⟨⟨-50, -50⟩, ⟨-40, 50⟩⟩ : Rect) ∈
      compute_border_edges ⟨100, 100⟩ 10 10 10 10 := by
    norm_num [compute_border_edges, ring_rects, keep_positive, Vec2.scale,
      Vec2.cmax, border_inner_min, border_inner_max]
  exact C10_border_edges_within_box ⟨100, 100⟩ 10 10 10 10 (by norm_num)
    (by norm_num) (by norm_num) (by norm_num) (by norm_num) (by norm_num)
    (by norm_num) (by norm_num) _ hm _ rfl

/-- A candidate with positive width and height passes the filter. -/
theorem keep_positive_pos {e : Rect} (hx : e.min.x < e.max.x)
    (hy : e.min.y < e.max.y) : keep_positive e = some e := by
  unfold keep_positive
  rw [if_pos ⟨hx, hy⟩]

/-- A candidate with degenerate width or height is dropped. -/
theorem keep_positive_degenerate {e : Rect}
    (h : ¬ (e.min.x < e.max.x) ∨ ¬ (e.min.y < e.max.y)) :
    keep_positive e = none := by
  unfold keep_positive
  rcases h with h | h
  · rw [if_neg (fun hc => h hc.1)]
  · rw [if_neg (fun hc => h hc.2)]

theorem optSpanX_some (r : Rect) :
    optSpanX (some r) = Set.Icc r.min.x r.max.x := rfl

theorem optSpanX_none : optSpanX none = ∅ := rfl

theorem optSpanY_some (r : Rect) :
    optSpanY (some r) = Set.Icc r.min.y r.max.y := rfl

theorem optSpanY_none : optSpanY none = ∅ := rfl

theorem optInterX_some (r : Rect) :
    optInterX (some r) = Set.Ioo r.min.x r.max.x := rfl

theorem optInterX_none : optInterX none = ∅ := rfl

theorem optInterY_some (r : Rect) :
    optInterY (some r) = Set.Ioo r.min.y r.max.y := rfl

theorem optInterY_none : optInterY none = ∅ := rfl

/-- C4 (amended): for a box with positive width and height, if
`0 ≤ left ≤ width` and `left + right ≥ width` then the inner x-span
collapses to a single coordinate and the stored Left/Right edges tile
`[-width/2, width/2]` with zero gap and zero interior overlap; the
analogous statement for Top/Bottom versus the height holds under
`0 ≤ top ≤ height`, `top + bottom ≥ height`, and additionally
`left + right < width` (otherwise the Top/Bottom candidates have zero
width and are stored as `none`). -/
theorem C4_collapsed_axis_tiling (size : Vec2) (left right top bottom : ℚ)
    (hw : 0 < size.x) (hh : 0 < size.y) :
    (0 ≤ left → left ≤ size.x → size.x ≤ left + right →
      (border_inner_max size left right top bottom).x =
          (border_inner_min size left top).x ∧
      optSpanX ((compute_border_edges size left right top bottom).getD 0
            none) ∪
          optSpanX ((compute_border_edges size left right top bottom).getD 1
            none) =
        Set.Icc (-(size.x / 2)) (size.x / 2) ∧
      optInterX ((compute_border_edges size left right top bottom).getD 0
            none) ∩
          optInterX ((compute_border_edges size left right top bottom).getD 1
            none) =
        ∅) ∧
    (0 ≤ top → top ≤ size.y → size.y ≤ top + bottom →
      left + right < size.x →
      (border_inner_max size left right top bottom).y =
          (border_inner_min size left top).y ∧
      optSpanY ((compute_border_edges size left right top bottom).getD 2
            none) ∪
          optSpanY ((compute_border_edges size left right top bottom).getD 3
            none) =
        Set.Icc (-(size.y / 2)) (size.y / 2) ∧
      optInterY ((compute_border_edges size left right top bottom).getD 2
            none) ∩
          optInterY ((compute_border_edges size left right top bottom).getD 3
            none) =
        ∅) := by
  have hmnx : (-(Vec2.scale (1/2) size)).x = -(size.x / 2) := by
    show -(1/2 * size.x) = -(size.x / 2); ring
  have hmny : (-(Vec2.scale (1/2) size)).y = -(size.y / 2) := by
    show -(1/2 * size.y) = -(size.y / 2); ring
  have hmxx : (Vec2.scale (1/2) size).x = size.x / 2 := by
    show 1/2 * size.x = size.x / 2; ring
  have hmxy : (Vec2.scale (1/2) size).y = size.y / 2 := by
    show 1/2 * size.y = size.y / 2; ring
  have himnx : (border_inner_min size left top).x = -(size.x / 2) + left := by
    show -(1/2 * size.x) + left = -(size.x / 2) + left; ring
  have himny : (border_inner_min size left top).y = -(size.y / 2) + top := by
    show -(1/2 * size.y) + top = -(size.y / 2) + top; ring
  have h0 : (compute_border_edges size left right top bottom).getD 0 none =
      keep_positive
        { min := -(Vec2.scale (1/2) size),
          max := ⟨(border_inner_min size left top).x,
            (Vec2.scale (1/2) size).y⟩ } := rfl
  have h1 : (compute_border_edges size left right top bottom).getD 1 none =
      keep_positive
        { min := ⟨(border_inner_max size left right top bottom).x,
            (-(Vec2.scale (1/2) size)).y⟩,
          max := Vec2.scale (1/2) size } := rfl
  have h2 : (compute_border_edges size left right top bottom).getD 2 none =
      keep_positive
        { min := ⟨(border_inner_min size left top).x,
            (-(Vec2.scale (1/2) size)).y⟩,
          max := ⟨(border_inner_max size left right top bottom).x,
            (border_inner_min size left top).y⟩ } := rfl
  have h3 : (compute_border_edges size left right top bottom).getD 3 none =
      keep_positive
        { min := ⟨(border_inner_min size left top).x,
            (border_inner_max size left right top bottom).y⟩,
          max := ⟨(border_inner_max size left right top bottom).x,
            (Vec2.scale (1/2) size).y⟩ } := rfl
  constructor
  · intro hl0 hlw hsum
    have hcollx : (border_inner_max size left right top bottom).x =
        (border_inner_min size left top).x := by
      show max ((Vec2.scale (1/2) size - ⟨right, bottom⟩).x)
          ((border_inner_min size left top).x) =
        (border_inner_min size left top).x
      apply max_eq_right
      rw [himnx]
      show 1/2 * size.x - right ≤ -(size.x / 2) + left
      linarith
    refine ⟨hcollx, ?_⟩
    rcases eq_or_lt_of_le hl0 with hL | hL
    · have hs0 : (compute_border_edges size left right top bottom).getD 0
          none = none := by
        rw [h0]
        apply keep_positive_degenerate
        left
        show ¬ ((-(Vec2.scale (1/2) size)).x <
          (border_inner_min size left top).x)
        rw [hmnx, himnx, ← hL]
        norm_num
      have hs1 : (compute_border_edges size left right top bottom).getD 1
          none =
          some ⟨⟨(border_inner_max size left right top bottom).x,
              (-(Vec2.scale (1/2) size)).y⟩,
            Vec2.scale (1/2) size⟩ := by
        rw [h1]
        apply keep_positive_pos
        · show (border_inner_max size left right top bottom).x <
            (Vec2.scale (1/2) size).x
          rw [hcollx, himnx, hmxx, ← hL]
          linarith
        · show (-(Vec2.scale (1/2) size)).y < (Vec2.scale (1/2) size).y
          rw [hmny, hmxy]
          linarith
      constructor
      · simp only [hs0, hs1, optSpanX_none, optSpanX_some, Set.empty_union]
        rw [hcollx, himnx, hmxx, ← hL]
        norm_num
      · simp only [hs0, optInterX_none, Set.empty_inter]
    · have hs0 : (compute_border_edges size left right top bottom).getD 0
          none =
          some ⟨-(Vec2.scale (1/2) size),
            ⟨(border_inner_min size left top).x,
              (Vec2.scale (1/2) size).y⟩⟩ := by
        rw [h0]
        apply keep_positive_pos
        · show (-(Vec2.scale (1/2) size)).x <
            (border_inner_min size left top).x
          rw [hmnx, himnx]
          linarith
        · show (-(Vec2.scale (1/2) size)).y < (Vec2.scale (1/2) size).y
          rw [hmny, hmxy]
          linarith
      rcases eq_or_lt_of_le hlw with hW | hW
      · have hs1 : (compute_border_edges size left right top bottom).getD 1
            none = none := by
          rw [h1]
          apply keep_positive_degenerate
          left
          show ¬ ((border_inner_max size left right top bottom).x <
            (Vec2.scale (1/2) size).x)
          rw [hcollx, himnx, hmxx, hW]
          intro hcl
          linarith
        constructor
        · simp only [hs0, hs1, optSpanX_some, optSpanX_none, Set.union_empty]
          rw [hmnx, himnx, hW]
          have hhe : -(size.x / 2) + size.x = size.x / 2 := by ring
          rw [hhe]
        · simp only [hs1, optInterX_none, Set.inter_empty]
      · have hs1 : (compute_border_edges size left right top bottom).getD 1
            none =
            some ⟨⟨(border_inner_max size left right top bottom).x,
                (-(Vec2.scale (1/2) size)).y⟩,
              Vec2.scale (1/2) size⟩ := by
          rw [h1]
          apply keep_positive_pos
          · show (border_inner_max size left right top bottom).x <
              (Vec2.scale (1/2) size).x
            rw [hcollx, himnx, hmxx]
            linarith
          · show (-(Vec2.scale (1/2) size)).y < (Vec2.scale (1/2) size).y
            rw [hmny, hmxy]
            linarith
        constructor
        · simp only [hs0, hs1, optSpanX_some]
          rw [hcollx, hmnx, himnx, hmxx]
          exact Set.Icc_union_Icc_eq_Icc (by linarith) (by linarith)
        · simp only [hs0, hs1, optInterX_some]
          apply Set.eq_empty_iff_forall_not_mem.mpr
          intro z hz
          obtain ⟨hz1, hz2⟩ := hz
          rw [Set.mem_Ioo] at hz1 hz2
          have hce := hcollx
          linarith [hz1.2, hz2.1]
  · intro ht0 hth hsum hxlt
    have hcolly : (border_inner_max size left right top bottom).y =
        (border_inner_min size left top).y := by
      show max ((Vec2.scale (1/2) size - ⟨right, bottom⟩).y)
          ((border_inner_min size left top).y) =
        (border_inner_min size left top).y
      apply max_eq_right
      rw [himny]
      show 1/2 * size.y - bottom ≤ -(size.y / 2) + top
      linarith
    have hTx : (border_inner_min size left top).x <
        (border_inner_max size left right top bottom).x := by
      have hlt : (border_inner_min size left top).x <
          (Vec2.scale (1/2) size - ⟨right, bottom⟩).x := by
        rw [himnx]
        show -(size.x / 2) + left < 1/2 * size.x - right
        linarith
      have hle : (Vec2.scale (1/2) size - ⟨right, bottom⟩).x ≤
          (border_inner_max size left right top bottom).x := by
        show (Vec2.scale (1/2) size - ⟨right, bottom⟩).x ≤
          max ((Vec2.scale (1/2) size - ⟨right, bottom⟩).x)
            ((border_inner_min size left top).x)
        exact le_max_left _ _
      exact lt_of_lt_of_le hlt hle
    refine ⟨hcolly, ?_⟩
    rcases eq_or_lt_of_le ht0 with hT | hT
    · have hs2 : (compute_border_edges size left right top bottom).getD 2
          none = none := by
        rw [h2]
        apply keep_positive_degenerate
        right
        show ¬ ((-(Vec2.scale (1/2) size)).y <
          (border_inner_min size left top).y)
        rw [hmny, himny, ← hT]
        norm_num
      have hs3 : (compute_border_edges size left right top bottom).getD 3
          none =
          some ⟨⟨(border_inner_min size left top).x,
              (border_inner_max size left right top bottom).y⟩,
            ⟨(border_inner_max size left right top bottom).x,
              (Vec2.scale (1/2) size).y⟩⟩ := by
        rw [h3]
        apply keep_positive_pos
        · exact hTx
        · show (border_inner_max size left right top bottom).y <
            (Vec2.scale (1/2) size).y
          rw [hcolly, himny, hmxy, ← hT]
          linarith
      constructor
      · simp only [hs2, hs3, optSpanY_none, optSpanY_some, Set.empty_union]
        rw [hcolly, himny, hmxy, ← hT]
        norm_num
      · simp only [hs2, optInterY_none, Set.empty_inter]
    · have hs2 : (compute_border_edges size left right top bottom).getD 2
          none =
          some ⟨⟨(border_inner_min size left top).x,
              (-(Vec2.scale (1/2) size)).y⟩,
            ⟨(border_inner_max size left right top bottom).x,
              (border_inner_min size left top).y⟩⟩ := by
        rw [h2]
        apply keep_positive_pos
        · exact hTx
        · show (-(Vec2.scale (1/2) size)).y <
            (border_inner_min size left top).y
          rw [hmny, himny]
          linarith
      rcases eq_or_lt_of_le hth with hH | hH
      · have hs3 : (compute_border_edges size left right top bottom).getD 3
            none = none := by
          rw [h3]
          apply keep_positive_degenerate
          right
          show ¬ ((border_inner_max size left right top bottom).y <
            (Vec2.scale (1/2) size).y)
          rw [hcolly, himny, hmxy, hH]
          intro hcl
          linarith
        constructor
        · simp only [hs2, hs3, optSpanY_some, optSpanY_none, Set.union_empty]
          rw [hmny, himny, hH]
          have hhe : -(size.y / 2) + size.y = size.y / 2 := by ring
          rw [hhe]
        · simp only [hs3, optInterY_none, Set.inter_empty]
      · have hs3 : (compute_border_edges size left right top bottom).getD 3
            none =
            some ⟨⟨(border_inner_min size left top).x,
                (border_inner_max size left right top bottom).y⟩,
              ⟨(border_inner_max size left right top bottom).x,
                (Vec2.scale (1/2) size).y⟩⟩ := by
          rw [h3]
          apply keep_positive_pos
          · exact hTx
          · show (border_inner_max size left right top bottom).y <
              (Vec2.scale (1/2) size).y
            rw [hcolly, himny, hmxy]
            linarith
        constructor
        · simp only [hs2, hs3, optSpanY_some]
          rw [hcolly, hmny, himny, hmxy]
          exact Set.Icc_union_Icc_eq_Icc (by linarith) (by linarith)
        · simp only [hs2, hs3, optInterY_some]
          apply Set.eq_empty_iff_forall_not_mem.mpr
          intro z hz
          obtain ⟨hz1, hz2⟩ := hz
          rw [Set.mem_Ioo] at hz1 hz2
          have hce := hcolly
          linarith [hz1.2, hz2.1]

/-- Counterexample to C4 as stated, in both directions it overreaches:
with box 100×100 and resolved thicknesses `left = 200, right = 0` (so
`left + right ≥ width`), the stored Left/Right edges cover `[-50, 150]`,
strictly more than the box's x-interval `[-50, 50]`; and with resolved
thicknesses `60, 60, 60, 60` (so `top + bottom ≥ height`), the stored
Top/Bottom slots are both `none` — their zero-width candidates were
dropped — so they cover nothing of the y-interval. -/
theorem C4_tiling_counterexample :
    (((100 : ℚ) ≤ 200 + 0) ∧
      optSpanX ((compute_border_edges ⟨100, 100⟩ 200 0 0 0).getD 0 none) ∪
          optSpanX ((compute_border_edges ⟨100, 100⟩ 200 0 0 0).getD 1 none) ≠
        Set.Icc (-((100 : ℚ) / 2)) (100 / 2)) ∧
    (((100 : ℚ) ≤ 60 + 60) ∧
      optSpanY ((compute_border_edges ⟨100, 100⟩ 60 60 60 60).getD 2 none) ∪
          optSpanY ((compute_border_edges ⟨100, 100⟩ 60 60 60 60).getD 3
            none) ≠
        Set.Icc (-((100 : ℚ) / 2)) (100 / 2)) := by
  have ha0 : (compute_border_edges ⟨100, 100⟩ 200 0 0 0).getD 0 none =
      some ⟨⟨-50, -50⟩, ⟨150, 50⟩⟩ := by
    norm_num [compute_border_edges, ring_rects, keep_positive, Vec2.scale,
      Vec2.cmax, border_inner_min, border_inner_max, List.getD]
  have ha1 : (compute_border_edges ⟨100, 100⟩ 200 0 0 0).getD 1 none =
      none := by
    norm_num [compute_border_edges, ring_rects, keep_positive, Vec2.scale,
      Vec2.cmax, border_inner_min, border_inner_max, List.getD]
  have hb2 : (compute_border_edges ⟨100, 100⟩ 60 60 60 60).getD 2 none =
      none := by
    norm_num [compute_border_edges, ring_rects, keep_positive, Vec2.scale,
      Vec2.cmax, border_inner_min, border_inner_max, List.getD]
  have hb3 : (compute_border_edges ⟨100, 100⟩ 60 60 60 60).getD 3 none =
      none := by
    norm_num [compute_border_edges, ring_rects, keep_positive, Vec2.scale,
      Vec2.cmax, border_inner_min, border_inner_max, List.getD]
  refine ⟨⟨by norm_num, ?_⟩, ⟨by norm_num, ?_⟩⟩
  · intro hEq
    have h150 : (150 : ℚ) ∈
        optSpanX ((compute_border_edges ⟨100, 100⟩ 200 0 0 0).getD 0 none) ∪
          optSpanX ((compute_border_edges ⟨100, 100⟩ 200 0 0 0).getD 1
            none) := by
      simp only [ha0, ha1, optSpanX_some, optSpanX_none, Set.union_empty]
      norm_num
    rw [hEq] at h150
    rw [Set.mem_Icc] at h150
    linarith [h150.2]
  · intro hEq
    have h0mem : (0 : ℚ) ∈ Set.Icc (-((100 : ℚ) / 2)) (100 / 2) := by
      rw [Set.mem_Icc]
      norm_num
    rw [← hEq] at h0mem
    simp only [hb2, hb3, optSpanY_none, Set.union_empty] at h0mem
    exact h0mem

/-- Witness for C4: box 100×100 with resolved left and right thickness 60
each — the inner x-span collapses and the Left/Right edges tile the box's
x-interval exactly. -/
theorem C4_collapsed_axis_tiling_witness :
    (border_inner_max ⟨100, 100⟩ 60 60 0 0).x =
        (border_inner_min ⟨100, 100⟩ 60 0).x ∧
    optSpanX ((compute_border_edges ⟨100, 100⟩ 60 60 0 0).getD 0 none) ∪
        optSpanX ((compute_border_edges ⟨100, 100⟩ 60 60 0 0).getD 1 none) =
      Set.Icc (-((100 : ℚ) / 2)) (100 / 2) ∧
    optInterX ((compute_border_edges ⟨100, 100⟩ 60 60 0 0).getD 0 none) ∩
        optInterX ((compute_border_edges ⟨100, 100⟩ 60 60 0 0).getD 1 none) =
      ∅ :=
  (C4_collapsed_axis_tiling ⟨100, 100⟩ 60 60 0 0 (by norm_num)
    (by norm_num)).1 (by norm_num) (by norm_num) (by norm_num)

/-- Every primitive a node emits carries that node's stack index. -/
theorem node_prims_stack_index (k : ℕ) (item : QueryItem) :
    ∀ p ∈ node_prims k item, p.stack_index = k := by
  intro p hp
  unfold node_prims at hp
  split at hp
  · simp at hp
  · obtain ⟨r, -, rfl⟩ := List.mem_map.mp hp
    rfl

/-- Every primitive emitted for a stacked entity carries its index. -/
theorem entity_prims_stack_index (k : ℕ) (q : ℕ → Option QueryItem)
    (e : ℕ) : ∀ p ∈ entity_prims k q e, p.stack_index = k := by
  intro p hp
  cases hq : q e with
  | none =>
      unfold entity_prims at hp
      rw [hq] at hp
      simp at hp
  | some item =>
      unfold entity_prims at hp
      rw [hq] at hp
      exact node_prims_stack_index k item p hp

/-- Primitives emitted from stack position `i` on have index at least
`i`. -/
theorem extract_from_stack_index_ge (stack : List ℕ) :
    ∀ (i : ℕ) (q : ℕ → Option QueryItem) (p : ExtractedUiNode),
      p ∈ extract_from i stack q → i ≤ p.stack_index := by
  induction stack with
  | nil =>
      intro i q p hp
      simp [extract_from] at hp
  | cons e rest ih =>
      intro i q p hp
      unfold extract_from at hp
      rw [List.mem_append] at hp
      rcases hp with hp | hp
      · exact le_of_eq (entity_prims_stack_index i q e p hp).symm
      · exact le_trans (Nat.le_succ i) (ih (i + 1) q p hp)

/-- A list of primitives all carrying the same stack index is pairwise
monotone in stack index. -/
theorem pairwise_const_stack_index (l : List ExtractedUiNode) (k : ℕ)
    (h : ∀ p ∈ l, p.stack_index = k) :
    l.Pairwise (fun p1 p2 => p1.stack_index ≤ p2.stack_index) := by
  induction l with
  | nil => exact List.Pairwise.nil
  | cons a t ih =>
      refine List.Pairwise.cons ?_ (ih ?_)
      · intro b hb
        rw [h a (List.mem_cons_self a t), h b (List.mem_cons.mpr (Or.inr hb))]
      · intro p hp
        exact h p (List.mem_cons.mpr (Or.inr hp))

/-- The extraction loop emits primitives with monotone stack indexes. -/
theorem extract_from_pairwise (stack : List ℕ) :
    ∀ (i : ℕ) (q : ℕ → Option QueryItem),
      (extract_from i stack q).Pairwise
        (fun p1 p2 => p1.stack_index ≤ p2.stack_index) := by
  induction stack with
  | nil =>
      intro i q
      simp [extract_from]
  | cons e rest ih =>
      intro i q
      unfold extract_from
      refine List.pairwise_append.mpr
        ⟨pairwise_const_stack_index _ i (entity_prims_stack_index i q e),
          ih (i + 1) q, ?_⟩
      intro a ha b hb
      rw [entity_prims_stack_index i q e a ha]
      exact le_trans (Nat.le_succ i)
        (extract_from_stack_index_ge rest (i + 1) q b hb)

/-- Filtering the extraction output at stack position `i + k` recovers
exactly the primitives of the entity at position `k`. -/
theorem extract_from_filter (stack : List ℕ) :
    ∀ (i k : ℕ) (q : ℕ → Option QueryItem) (h : k < stack.length),
      (extract_from i stack q).filter
          (fun p => p.stack_index == i + k) =
        entity_prims (i + k) q (stack.get ⟨k, h⟩) := by
  induction stack with
  | nil =>
      intro i k q h
      exact absurd h (by simp)
  | cons e rest ih =>
      intro i k q h
      unfold extract_from
      rw [List.filter_append]
      cases k with
      | zero =>
          have hfirst : (entity_prims i q e).filter
              (fun p => p.stack_index == i + 0) = entity_prims i q e := by
            apply List.filter_eq_self.mpr
            intro p hp
            simp [entity_prims_stack_index i q e p hp]
          have hrest : (extract_from (i + 1) rest q).filter
              (fun p => p.stack_index == i + 0) = [] := by
            apply List.filter_eq_nil_iff.mpr
            intro p hp
            have hge := extract_from_stack_index_ge rest (i + 1) q p hp
            simp only [beq_iff_eq]
            omega
          rw [hfirst, hrest, List.append_nil]
          rfl
      | succ m =>
          have hfirst : (entity_prims i q e).filter
              (fun p => p.stack_index == i + (m + 1)) = [] := by
            apply List.filter_eq_nil_iff.mpr
            intro p hp
            have hpe := entity_prims_stack_index i q e p hp
            simp only [beq_iff_eq, hpe]
            omega
          rw [hfirst, List.nil_append]
          have h' : m < rest.length := by simpa using h
          have hrec := ih (i + 1) m q h'
          have harith : i + 1 + m = i + (m + 1) := by omega
          rw [harith] at hrec
          exact hrec

/-- C7: extraction preserves the paint-order stack order among nodes —
emitted stack indexes are monotone along the output — and the primitives
of the node at stack position `k` are exactly that node's per-edge
primitives, which `node_prims` emits by walking the edge slots in the
fixed order Left, Right, Top, Bottom. -/
theorem C7_extraction_order (stack : List ℕ) (q : ℕ → Option QueryItem) :
    ((extract_uinodes stack q).map
        (fun p => p.stack_index)).Pairwise (fun a b => a ≤ b) ∧
    ∀ (k : ℕ) (h : k < stack.length),
      (extract_uinodes stack q).filter (fun p => p.stack_index == k) =
        entity_prims k q (stack.get ⟨k, h⟩) := by
  constructor
  · rw [List.pairwise_map]
    exact extract_from_pairwise stack 0 q
  · intro k h
    have hf := extract_from_filter stack 0 k q h
    rw [Nat.zero_add] at hf
    exact hf

/-- Witness for C7 at the one-element stack `[5]`. -/
theorem C7_extraction_order_witness :
    ((extract_uinodes [5] sample_query).map
        (fun p => p.stack_index)).Pairwise (fun a b => a ≤ b) ∧
    (extract_uinodes [5] sample_query).filter
        (fun p => p.stack_index == 0) =
      entity_prims 0 sample_query (([5] : List ℕ).get ⟨0, by decide⟩) :=
  ⟨(C7_extraction_order [5] sample_query).1,
   (C7_extraction_order [5] sample_query).2 0 (by decide)⟩

/-- C8: a stacked node that is not visible or whose color has alpha
exactly `0` contributes no primitives to the extraction output, whatever
its stored edge geometry. -/
theorem C8_invisible_or_alpha_zero_emits_nothing (stack : List ℕ)
    (q : ℕ → Option QueryItem) (k : ℕ) (h : k < stack.length)
    (item : QueryItem) (hq : q (stack.get ⟨k, h⟩) = some item)
    (hskip : item.visible = false ∨ item.color.a = 0) :
    (extract_uinodes stack q).filter (fun p => p.stack_index == k) = [] := by
  have hf := extract_from_filter stack 0 k q h
  rw [Nat.zero_add] at hf
  unfold extract_uinodes
  rw [hf]
  unfold entity_prims
  rw [hq]
  show node_prims k item = []
  unfold node_prims
  rw [if_pos hskip]

/-- Witness for C8: an alpha-zero node with a stored edge emits no
primitives. -/
theorem C8_invisible_or_alpha_zero_emits_nothing_witness :
    ((0 : ℕ) < ([7] : List ℕ).length) ∧
    (extract_uinodes [7] sample_query_alpha_zero).filter
      (fun p => p.stack_index == 0) = [] :=
  ⟨by decide,
   C8_invisible_or_alpha_zero_emits_nothing [7] sample_query_alpha_zero 0
     (by decide) _ rfl (Or.inr rfl)⟩

end BevyUiBorders
